import Mathlib

/-!
# Kafka load generator: `internal/services/kafka.go` and `cmd/kafka-load-test/main.go`

A shallow embedding of the rate-limited producer engine.

* The body of `KafkaService.worker` is embedded as `workerStart` (the code before the
  `for` loop), `loopBody` (one iteration of the `for { select { ... } }` loop) and
  `workerLoop` (the loop over the sequence of choices made by `select`).
* `KafkaService.GenerateLoad` together with the goroutines it creates is embedded as an
  interleaving transition system: `GenerateLoad` is the state at function entry, `step`
  executes one atomic action of one goroutine, `exec` runs a schedule of actions.

Go `int`, `int64` and `time.Duration` values are integers in `[-2^63, 2^63)`; arithmetic that
can leave the range is wrapped with `wrapInt64`.
-/

namespace KafkaLoad

/-! ## Machine integers and durations -/

/-- Two-complement wrap-around of a 64-bit signed Go integer (`int`, `int64`, `time.Duration`). -/
def wrapInt64 (x : Int) : Int :=
  (x + 9223372036854775808) % 18446744073709551616 - 9223372036854775808

/-- The constant `time.Second`, a `time.Duration` counted in nanoseconds. -/
def Second : Int := 1000000000

/-- Run-time panics reachable from `worker`. -/
inductive Panic where
  /-- Integer division by zero in `time.Second / time.Duration(messagesPerSec)`. -/
  | divideByZero
  /-- The panic of `time.NewTicker` for a duration that is not greater than zero. -/
  | nonPositiveInterval
  deriving DecidableEq, Repr

/-- The expression `time.Second / time.Duration(messagesPerSec)` (kafka.go line 96): the
conversion is the identity on 64-bit values, `/` truncates toward zero and panics on a zero
divisor. -/
def tickInterval (messagesPerSec : Int) : Except Panic Int :=
  if messagesPerSec = 0 then
    Except.error Panic.divideByZero
  else
    Except.ok (wrapInt64 (Int.tdiv Second messagesPerSec))

/-- The library call `time.NewTicker(d)`: it panics unless `d > 0`, otherwise the ticker
delivers on its channel with period `d`. The ticker is represented by its period. -/
def NewTicker (d : Int) : Except Panic Int :=
  if d ≤ 0 then Except.error Panic.nonPositiveInterval else Except.ok d

/-! ## The worker -/

/-- The struct `LoadTestMessage` (kafka.go lines 22-26); `Timestamp` is the reading of
`time.Now()` in nanoseconds. -/
structure LoadTestMessage where
  Timestamp : Nat
  ThreadID : Int
  Count : Int
  deriving DecidableEq, Repr

/-- Observable effects of one worker, in program order. -/
inductive Effect where
  /-- The call `k.SendMessage(message)` (line 111). -/
  | send (message : LoadTestMessage)
  /-- The call `k.logger.Errorf("Thread %d failed to send message: %v", ...)` (line 112). -/
  | sendError (threadID : Int)
  /-- The call `k.logger.Infof("Thread %d: %d messages sent", ...)` (line 117). -/
  | progress (threadID : Int) (count : Int)
  deriving DecidableEq, Repr

/-- The outcome of one `select` of the worker loop (lines 101-104). -/
inductive Event where
  /-- The case `<-stopCh` was chosen. -/
  | stop
  /-- The case `<-ticker.C` was chosen; `now` is the value of `time.Now()` and `sendOk`
  tells whether `k.SendMessage` returned a nil error. -/
  | tick (now : Nat) (sendOk : Bool)
  deriving DecidableEq, Repr

/-- Local variables of a running `worker` call: its arguments, its ticker period, the
counter `count`, and whether the function has returned. -/
structure WorkerState where
  threadID : Int
  ticker : Int
  count : Int
  returned : Bool
  deriving DecidableEq, Repr

/-- Lines 96-99 of `worker`: build the ticker and set `count := 0`. -/
def workerStart (threadID : Int) (messagesPerSec : Int) : Except Panic WorkerState :=
  match tickInterval messagesPerSec with
  | Except.error p => Except.error p
  | Except.ok d =>
    match NewTicker d with
    | Except.error p => Except.error p
    | Except.ok t => Except.ok ⟨threadID, t, 0, false⟩

/-- One iteration of the loop of `worker` (lines 100-120). A worker that has returned
executes nothing more. -/
def loopBody (s : WorkerState) (e : Event) : WorkerState × List Effect :=
  if s.returned then (s, [])
  else
    match e with
    | Event.stop => (⟨s.threadID, s.ticker, s.count, true⟩, [])
    | Event.tick now sendOk =>
      let message : LoadTestMessage := ⟨now, s.threadID, s.count⟩
      let failure : List Effect := if sendOk then [] else [Effect.sendError s.threadID]
      let count := wrapInt64 (s.count + 1)
      let report : List Effect :=
        if Int.tmod count 100 = 0 then [Effect.progress s.threadID count] else []
      (⟨s.threadID, s.ticker, count, false⟩, Effect.send message :: (failure ++ report))

/-- The loop of `worker` over the successive outcomes of its `select`. -/
def workerLoop (s : WorkerState) : List Event → WorkerState × List Effect
  | [] => (s, [])
  | e :: es =>
    let r := loopBody s e
    let r2 := workerLoop r.1 es
    (r2.1, r.2 ++ r2.2)

/-- The function `worker` (lines 93-121) run on a sequence of `select` outcomes. -/
def worker (threadID : Int) (messagesPerSec : Int) (events : List Event) :
    Except Panic (WorkerState × List Effect) :=
  match workerStart threadID messagesPerSec with
  | Except.error p => Except.error p
  | Except.ok s => Except.ok (workerLoop s events)

/-- The messages handed to `k.SendMessage`, in order. -/
def sentMessages : List Effect → List LoadTestMessage
  | [] => []
  | Effect.send m :: es => m :: sentMessages es
  | _ :: es => sentMessages es

/-- The threads of the `Errorf` reports of failed sends, in order. -/
def sendErrors : List Effect → List Int
  | [] => []
  | Effect.sendError i :: es => i :: sendErrors es
  | _ :: es => sendErrors es

/-- The permits of a sequence of `select` outcomes: the ticks, with their time and send
outcome, that come before the first stop. -/
def permits : List Event → List (Nat × Bool)
  | [] => []
  | Event.stop :: _ => []
  | Event.tick now sendOk :: es => (now, sendOk) :: permits es

/-- A ticker of period `interval` nanoseconds created at time 0 delivers at the times
`interval`, `2 * interval`, ...: the delivery times up to and including time `T`. -/
def idealTickTimes (interval : Nat) (T : Nat) : List Nat :=
  (List.range (T / interval)).map (fun k => (k + 1) * interval)

/-- The ticks a worker takes under an ideal ticker when the stop channel is closed at time
`T` and every send takes no time: each tick due before `T` is served when it is due; at a
tick due exactly at `T` both cases of the `select` are ready, and it is served only when
the `select` does not take the stop first. -/
def servedTickTimes (interval : Nat) (T : Nat) (stopFirst : Bool) : List Nat :=
  (idealTickTimes interval T).filter (fun t => decide (t < T) || !stopFirst)

/-- The `select` outcomes of a worker that is served by an ideal ticker, whose sends all
succeed and take no time, and that observes the stop at time `T`; `stopFirst` resolves the
`select` when a tick is due at `T` itself. -/
def idealEvents (interval : Nat) (T : Nat) (stopFirst : Bool) : List Event :=
  (servedTickTimes interval T stopFirst).map (fun t => Event.tick t true) ++ [Event.stop]

/-- The function `worker` under an ideal ticker and sender, stopped at time `T` (ns). -/
def idealWorker (threadID : Int) (messagesPerSec : Int) (T : Nat) (stopFirst : Bool) :
    Except Panic (WorkerState × List Effect) :=
  match workerStart threadID messagesPerSec with
  | Except.error p => Except.error p
  | Except.ok s => Except.ok (workerLoop s (idealEvents s.ticker.toNat T stopFirst))

/-! ## GenerateLoad and its goroutines -/

/-- Where a worker goroutine stands. -/
inductive Phase where
  /-- The statement `go k.worker(...)` has run; the body has not started. -/
  | created
  /-- The body passed line 99; it is in the loop, or has returned from it when the
  field `returned` of the state is set. -/
  | started (s : WorkerState)
  /-- The body panicked before the loop. -/
  | panicked (p : Panic)
  deriving DecidableEq, Repr

/-- A goroutine created by `go k.worker(i, messagesPerSec, stopCh, &wg)` (line 86) with
the arguments it was given; `stopCh` is the identity of the channel. -/
structure Goroutine where
  threadID : Int
  messagesPerSec : Int
  stopCh : Nat
  phase : Phase
  deriving DecidableEq, Repr

/-- Program counter of the goroutine that executes `GenerateLoad`. -/
inductive Ctrl where
  /-- In the loop of lines 84-87 with loop variable `i`. -/
  | spawning (i : Int)
  /-- Blocked in `wg.Wait()` (line 89). -/
  | waiting
  /-- The call `wg.Wait()` returned and `GenerateLoad` returned. -/
  | returned
  deriving DecidableEq, Repr

/-- The goroutine of lines 78-81. -/
inductive Timer where
  /-- The branch `duration > 0` was not taken: no such goroutine. -/
  | absent
  /-- The goroutine was created and has not yet called `time.Sleep`. -/
  | created
  /-- The goroutine is in `time.Sleep(duration)`, which ends no earlier than `wake`. -/
  | sleeping (wake : Nat)
  /-- The goroutine executed `close(stopCh)`. -/
  | closed
  deriving DecidableEq, Repr

/-- State of one call of `GenerateLoad` and of the goroutines it created. Time `now` is in
nanoseconds since the call. -/
structure Sys where
  numThreads : Int
  messagesPerSec : Int
  duration : Int
  now : Nat
  stopCh : Nat
  stopClosed : Bool
  timer : Timer
  ctrl : Ctrl
  wg : Int
  workers : List Goroutine
  effects : List Effect
  exited : Bool
  deriving DecidableEq, Repr

/-- The atomic actions of the goroutines and of the environment. -/
inductive Action where
  /-- Time passes. -/
  | elapse (dt : Nat)
  /-- One evaluation of the loop condition of line 84, with the loop body when it holds. -/
  | spawn
  /-- The timer goroutine calls `time.Sleep(duration)` (line 79). -/
  | timerSleep
  /-- The sleep is over and the timer goroutine executes `close(stopCh)` (line 80). -/
  | timerClose
  /-- Worker number `w` runs lines 94-99. -/
  | start (w : Nat)
  /-- Worker number `w` takes the case `<-ticker.C`; `sendOk` is the outcome of the send. -/
  | tick (w : Nat) (sendOk : Bool)
  /-- Worker number `w` takes the case `<-stopCh`. -/
  | stop (w : Nat)
  /-- The call `wg.Wait()` returns, then `GenerateLoad` returns (lines 89-91). -/
  | wait
  /-- The signal arrives on `sigCh` of `main` (main.go lines 41-43): `main` returns. -/
  | signal
  /-- The runtime ends the process after an unrecovered panic. -/
  | crash
  deriving DecidableEq, Repr

/-- Lines 70-82 of `GenerateLoad`: the state when the loop of line 84 is reached. The
stop channel is the first channel made, the timer goroutine exists when `duration > 0`. -/
def GenerateLoad (numThreads : Int) (messagesPerSec : Int) (duration : Int) : Sys :=
  { numThreads := numThreads
    messagesPerSec := messagesPerSec
    duration := duration
    now := 0
    stopCh := 0
    stopClosed := false
    timer := if duration > 0 then Timer.created else Timer.absent
    ctrl := Ctrl.spawning 0
    wg := 0
    workers := []
    effects := []
    exited := false }

/-- Replace the phase of worker number `w`. -/
def setPhase : List Goroutine → Nat → Phase → List Goroutine
  | [], _, _ => []
  | g :: gs, 0, ph => ⟨g.threadID, g.messagesPerSec, g.stopCh, ph⟩ :: gs
  | g :: gs, w + 1, ph => g :: setPhase gs w ph

/-- Whether some worker has panicked. -/
def anyPanicked (ws : List Goroutine) : Bool :=
  ws.any (fun g => match g.phase with
    | Phase.panicked _ => true
    | _ => false)

/-- One atomic action; `none` when the action is not enabled in the state.

* The times at which a ticker delivers are left unconstrained: a tick may be taken in any
  state in which the worker is in its loop.
* `time.Sleep(duration)` returns no earlier than `duration` after it was called.
* A panic in a worker unwinds that goroutine, which runs its deferred `wg.Done()`; the
  other goroutines keep running until the runtime ends the process (`crash`).
* When `main` returns after the signal, the process ends and no goroutine runs any more.
* The loop variable `i` stays below `numThreads`, so `i + 1` does not leave the integer
  range and is not wrapped. -/
def step (s : Sys) (a : Action) : Option Sys :=
  if s.exited then none
  else
    match a with
    | Action.elapse dt => some { s with now := s.now + dt }
    | Action.spawn =>
      match s.ctrl with
      | Ctrl.spawning i =>
        if i < s.numThreads then
          some { s with
            wg := s.wg + 1
            workers := s.workers ++ [⟨i, s.messagesPerSec, s.stopCh, Phase.created⟩]
            ctrl := Ctrl.spawning (i + 1) }
        else some { s with ctrl := Ctrl.waiting }
      | _ => none
    | Action.timerSleep =>
      match s.timer with
      | Timer.created => some { s with timer := Timer.sleeping (s.now + s.duration.toNat) }
      | _ => none
    | Action.timerClose =>
      match s.timer with
      | Timer.sleeping wake =>
        if wake ≤ s.now then some { s with timer := Timer.closed, stopClosed := true }
        else none
      | _ => none
    | Action.start w =>
      match s.workers[w]? with
      | some g =>
        match g.phase with
        | Phase.created =>
          match workerStart g.threadID g.messagesPerSec with
          | Except.ok ws => some { s with workers := setPhase s.workers w (Phase.started ws) }
          | Except.error p =>
            some { s with
              workers := setPhase s.workers w (Phase.panicked p)
              wg := s.wg - 1 }
        | _ => none
      | none => none
    | Action.tick w sendOk =>
      match s.workers[w]? with
      | some g =>
        match g.phase with
        | Phase.started ws =>
          if ws.returned then none
          else
            let r := loopBody ws (Event.tick s.now sendOk)
            some { s with
              workers := setPhase s.workers w (Phase.started r.1)
              effects := s.effects ++ r.2 }
        | _ => none
      | none => none
    | Action.stop w =>
      match s.workers[w]? with
      | some g =>
        match g.phase with
        | Phase.started ws =>
          if ws.returned then none
          else if g.stopCh = s.stopCh ∧ s.stopClosed = true then
            let r := loopBody ws Event.stop
            some { s with
              workers := setPhase s.workers w (Phase.started r.1)
              effects := s.effects ++ r.2
              wg := s.wg - 1 }
          else none
        | _ => none
      | none => none
    | Action.wait =>
      match s.ctrl with
      | Ctrl.waiting => if s.wg = 0 then some { s with ctrl := Ctrl.returned } else none
      | _ => none
    | Action.signal => some { s with exited := true }
    | Action.crash => if anyPanicked s.workers then some { s with exited := true } else none

/-- Run a schedule of actions; `none` when some action of it is not enabled. -/
def exec (s : Sys) : List Action → Option Sys
  | [] => some s
  | a :: as =>
    match step s a with
    | some s2 => exec s2 as
    | none => none

/-- Whether worker `g` has left `worker` by the `return` of line 103. -/
def hasReturned (g : Goroutine) : Bool :=
  match g.phase with
  | Phase.started ws => ws.returned
  | _ => false

/-- Whether worker `g` has terminated, by `return` or by a panic. -/
def hasTerminated (g : Goroutine) : Bool :=
  match g.phase with
  | Phase.started ws => ws.returned
  | Phase.panicked _ => true
  | Phase.created => false

/-- The arguments `(threadID, messagesPerSec, stopCh)` given to each worker, in the order
the workers were created. -/
def spawnArgs (s : Sys) : List (Int × Int × Nat) :=
  s.workers.map (fun g => (g.threadID, g.messagesPerSec, g.stopCh))

/-- Number of workers that have not terminated. -/
def live (ws : List Goroutine) : Nat :=
  ws.countP (fun g => !hasTerminated g)

/-- The inductive invariant of the transition system of `GenerateLoad N R D`. -/
structure Inv (N R D : Int) (s : Sys) : Prop where
  cfgN : s.numThreads = N
  cfgR : s.messagesPerSec = R
  cfgD : s.duration = D
  cfgCh : s.stopCh = 0
  args : spawnArgs s = (List.range s.workers.length).map (fun (k : Nat) => ((k : Int), R, 0))
  loop : ∀ i, s.ctrl = Ctrl.spawning i → i = (s.workers.length : Int) ∧ (i ≤ N ∨ i = 0)
  spawned : (∀ i, s.ctrl ≠ Ctrl.spawning i) → s.workers.length = N.toNat
  timerAbsent : s.timer = Timer.absent ↔ D ≤ 0
  closed : s.stopClosed = true ↔ s.timer = Timer.closed
  sleep : ∀ wake, s.timer = Timer.sleeping wake → D ≤ (wake : Int)
  deadline : s.timer = Timer.closed → D ≤ (s.now : Int)
  ret : ∀ g ∈ s.workers, hasReturned g = true → s.stopClosed = true
  wgLive : s.wg = (live s.workers : Int)
  done : s.ctrl = Ctrl.returned → ∀ g ∈ s.workers, hasTerminated g = true
  valid : (1 ≤ R ∧ R ≤ 1000000000) → ∀ g ∈ s.workers, ∀ p, g.phase ≠ Phase.panicked p
  invalid : ¬ (1 ≤ R ∧ R ≤ 1000000000) → ∀ g ∈ s.workers, ∀ ws, g.phase ≠ Phase.started ws
  quiet : (N ≤ 0 ∨ ¬ (1 ≤ R ∧ R ≤ 1000000000)) → s.effects = []

/-! ## The tick interval -/

theorem wrapInt64_of_range (x : Int) (h1 : -9223372036854775808 ≤ x)
    (h2 : x < 9223372036854775808) : wrapInt64 x = x := by
  unfold wrapInt64
  omega

theorem tickInterval_of_pos (R : Int) (hR : 0 < R) :
    tickInterval R = Except.ok (1000000000 / R) := by
  have hne : R ≠ 0 := by omega
  have hq : Int.tdiv Second R = 1000000000 / R := by
    unfold Second
    exact Int.tdiv_eq_ediv (by norm_num) (by omega)
  have h0 : (0 : Int) ≤ 1000000000 / R := Int.ediv_nonneg (by norm_num) (by omega)
  have h1 : (1000000000 : Int) / R ≤ 1000000000 := Int.ediv_le_self R (by norm_num)
  unfold tickInterval
  rw [if_neg hne, hq, wrapInt64_of_range _ (by omega) (by omega)]

theorem tickInterval_of_neg (R : Int) (hR : R < 0) :
    ∃ d, tickInterval R = Except.ok d ∧ d ≤ 0 := by
  have hne : R ≠ 0 := by omega
  have hq : Int.tdiv Second R = -(1000000000 / (-R)) := by
    have h := Int.tdiv_neg Second (-R)
    rw [neg_neg] at h
    rw [h]
    unfold Second
    rw [Int.tdiv_eq_ediv (by norm_num) (by omega)]
  have h0 : (0 : Int) ≤ 1000000000 / (-R) := Int.ediv_nonneg (by norm_num) (by omega)
  have h1 : (1000000000 : Int) / (-R) ≤ 1000000000 := Int.ediv_le_self (-R) (by norm_num)
  refine ⟨-(1000000000 / (-R)), ?_, by omega⟩
  unfold tickInterval
  rw [if_neg hne, hq, wrapInt64_of_range _ (by omega) (by omega)]

theorem interval_pos_of_le (R : Int) (h1 : 1 ≤ R) (h2 : R ≤ 1000000000) :
    0 < (1000000000 : Int) / R := by
  have h := (Int.le_ediv_iff_mul_le (a := 1) (b := 1000000000) (c := R) (by omega)).2 (by omega)
  omega

theorem interval_zero_of_gt (R : Int) (h : 1000000000 < R) : (1000000000 : Int) / R = 0 :=
  Int.ediv_eq_zero_of_lt (by norm_num) h

theorem workerStart_of_valid (threadID R : Int) (h1 : 1 ≤ R) (h2 : R ≤ 1000000000) :
    workerStart threadID R = Except.ok ⟨threadID, 1000000000 / R, 0, false⟩ := by
  have hp := interval_pos_of_le R h1 h2
  unfold workerStart
  rw [tickInterval_of_pos R (by omega)]
  simp only [NewTicker]
  rw [if_neg (by omega)]

theorem workerStart_of_invalid (threadID R : Int) (h : ¬ (1 ≤ R ∧ R ≤ 1000000000)) :
    ∃ p, workerStart threadID R = Except.error p := by
  rcases lt_trichotomy R 0 with hneg | hz | hpos
  · obtain ⟨d, hd, hle⟩ := tickInterval_of_neg R hneg
    refine ⟨Panic.nonPositiveInterval, ?_⟩
    unfold workerStart
    rw [hd]
    simp only [NewTicker]
    rw [if_pos hle]
  · refine ⟨Panic.divideByZero, ?_⟩
    subst hz
    rfl
  · have hbig : 1000000000 < R := by omega
    refine ⟨Panic.nonPositiveInterval, ?_⟩
    unfold workerStart
    rw [tickInterval_of_pos R hpos, interval_zero_of_gt R hbig]
    rfl

/-- C10: the tick interval `time.Second / time.Duration(R)` is computed without a division
by zero and is strictly positive, so that the ticker and the worker can be built, exactly
when `1 ≤ R ≤ 1000000000`; for `R = 0` the division panics, and for every
`R > 1000000000` the quotient is 0 and `time.NewTicker` panics. -/
theorem tick_interval_positive_iff (threadID R : Int) :
    ((∃ d, tickInterval R = Except.ok d ∧ 0 < d) ↔ (1 ≤ R ∧ R ≤ 1000000000)) ∧
    ((∃ s, workerStart threadID R = Except.ok s) ↔ (1 ≤ R ∧ R ≤ 1000000000)) ∧
    tickInterval 0 = Except.error Panic.divideByZero ∧
    (1000000000 < R → tickInterval R = Except.ok 0 ∧
      workerStart threadID R = Except.error Panic.nonPositiveInterval) := by
  refine ⟨⟨?_, ?_⟩, ⟨?_, ?_⟩, rfl, ?_⟩
  · rintro ⟨d, hd, hpos⟩
    rcases lt_trichotomy R 0 with hneg | hz | hp
    · obtain ⟨e, he, hle⟩ := tickInterval_of_neg R hneg
      rw [he] at hd
      have := Except.ok.inj hd
      omega
    · subst hz
      exact absurd hd (by simp [tickInterval])
    · rw [tickInterval_of_pos R hp] at hd
      have hq := Except.ok.inj hd
      by_contra hcon
      have hbig : 1000000000 < R := by omega
      have := interval_zero_of_gt R hbig
      omega
  · rintro ⟨h1, h2⟩
    exact ⟨1000000000 / R, tickInterval_of_pos R (by omega), interval_pos_of_le R h1 h2⟩
  · rintro ⟨s, hs⟩
    by_contra hcon
    obtain ⟨p, hp⟩ := workerStart_of_invalid threadID R hcon
    rw [hp] at hs
    exact absurd hs (by simp)
  · rintro ⟨h1, h2⟩
    exact ⟨_, workerStart_of_valid threadID R h1 h2⟩
  · intro hbig
    have hq := interval_zero_of_gt R hbig
    refine ⟨?_, ?_⟩
    · rw [tickInterval_of_pos R (by omega), hq]
    · unfold workerStart
      rw [tickInterval_of_pos R (by omega), hq]
      rfl

/-- C4, as stated, fails: for the rate `R = 3` the worker computes the interval
333333333 ns, and `333333333 * 3 = 999999999` is below one second. -/
theorem tick_interval_short_at_three :
    tickInterval 3 = Except.ok 333333333 ∧ ¬ ((333333333 : Int) * 3 ≥ 1000000000) := by
  refine ⟨?_, by norm_num⟩
  rw [tickInterval_of_pos 3 (by norm_num)]
  norm_num

/-- C4, amended: for every rate `R > 0` the interval the worker computes is the floor of
`1000000000 / R` nanoseconds: `interval * R ≤ 1000000000 < (interval + 1) * R`, and it
reaches `1/R` second (`interval * R ≥ 1000000000`) exactly when `R` divides 1000000000. -/
theorem tick_interval_floor (R : Int) (hR : 0 < R) :
    ∃ d, tickInterval R = Except.ok d ∧ d * R ≤ 1000000000 ∧ 1000000000 < (d + 1) * R ∧
      (1000000000 ≤ d * R ↔ R ∣ 1000000000) := by
  refine ⟨1000000000 / R, tickInterval_of_pos R hR, ?_, ?_, ?_⟩
  · exact Int.ediv_mul_le 1000000000 (by omega)
  · exact Int.lt_ediv_add_one_mul_self 1000000000 hR
  · constructor
    · intro hge
      have hle := Int.ediv_mul_le 1000000000 (b := R) (by omega)
      exact Dvd.intro_left (1000000000 / R) (le_antisymm hle hge)
    · intro hdvd
      rw [Int.ediv_mul_cancel hdvd]

/-- Witness of `tick_interval_floor` at the rate 3. -/
theorem tick_interval_floor_witness :
    (0 : Int) < 3 ∧ ∃ d, tickInterval 3 = Except.ok d ∧ d * 3 ≤ 1000000000 ∧
      1000000000 < (d + 1) * 3 ∧ (1000000000 ≤ d * 3 ↔ (3 : Int) ∣ 1000000000) :=
  ⟨by decide, tick_interval_floor 3 (by decide)⟩

/-! ## The worker loop -/

theorem sentMessages_append (xs ys : List Effect) :
    sentMessages (xs ++ ys) = sentMessages xs ++ sentMessages ys := by
  induction xs with
  | nil => rfl
  | cons x xs ih => cases x <;> simp [sentMessages, ih]

theorem sendErrors_append (xs ys : List Effect) :
    sendErrors (xs ++ ys) = sendErrors xs ++ sendErrors ys := by
  induction xs with
  | nil => rfl
  | cons x xs ih => cases x <;> simp [sendErrors, ih]

theorem loopBody_returned (s : WorkerState) (e : Event) (h : s.returned = true) :
    loopBody s e = (s, []) := by
  simp [loopBody, h]

theorem workerLoop_returned (s : WorkerState) (es : List Event) (h : s.returned = true) :
    workerLoop s es = (s, []) := by
  induction es with
  | nil => rfl
  | cons e es ih => simp [workerLoop, loopBody_returned s e h, ih]

theorem loopBody_stop (s : WorkerState) (h : s.returned = false) :
    loopBody s Event.stop = (⟨s.threadID, s.ticker, s.count, true⟩, []) := by
  simp [loopBody, h]

theorem loopBody_tick_state (s : WorkerState) (now : Nat) (ok : Bool)
    (h : s.returned = false) :
    (loopBody s (Event.tick now ok)).1 =
      ⟨s.threadID, s.ticker, wrapInt64 (s.count + 1), false⟩ := by
  simp [loopBody, h]

theorem loopBody_tick_sent (s : WorkerState) (now : Nat) (ok : Bool)
    (h : s.returned = false) :
    sentMessages (loopBody s (Event.tick now ok)).2 = [⟨now, s.threadID, s.count⟩] := by
  cases ok <;> simp only [loopBody, h] <;> split_ifs <;> simp_all [sentMessages]

theorem loopBody_tick_errors (s : WorkerState) (now : Nat) (ok : Bool)
    (h : s.returned = false) :
    sendErrors (loopBody s (Event.tick now ok)).2 = if ok then [] else [s.threadID] := by
  cases ok <;> simp only [loopBody, h] <;> split_ifs <;> simp_all [sendErrors]

theorem workerLoop_cons (s : WorkerState) (e : Event) (es : List Event) :
    workerLoop s (e :: es) =
      ((workerLoop (loopBody s e).1 es).1, (loopBody s e).2 ++ (workerLoop (loopBody s e).1 es).2) :=
  rfl

theorem workerLoop_append (s : WorkerState) (es fs : List Event) :
    workerLoop s (es ++ fs) =
      ((workerLoop (workerLoop s es).1 fs).1,
        (workerLoop s es).2 ++ (workerLoop (workerLoop s es).1 fs).2) := by
  induction es generalizing s with
  | nil => simp [workerLoop]
  | cons e es ih =>
    rw [List.cons_append, workerLoop_cons, ih, workerLoop_cons]
    simp [List.append_assoc]

theorem workerStart_fields (threadID R : Int) (s0 : WorkerState)
    (h : workerStart threadID R = Except.ok s0) :
    s0.threadID = threadID ∧ s0.count = 0 ∧ s0.returned = false ∧ 0 < s0.ticker := by
  by_cases hv : 1 ≤ R ∧ R ≤ 1000000000
  · rw [workerStart_of_valid threadID R hv.1 hv.2] at h
    have hs := Except.ok.inj h
    subst hs
    exact ⟨rfl, rfl, rfl, interval_pos_of_le R hv.1 hv.2⟩
  · obtain ⟨p, hp⟩ := workerStart_of_invalid threadID R hv
    rw [hp] at h
    exact absurd h (by simp)

theorem sent_length_workerLoop (es : List Event) :
    ∀ s : WorkerState, s.returned = false →
      (sentMessages (workerLoop s es).2).length = (permits es).length := by
  induction es with
  | nil => intro s _; rfl
  | cons e es ih =>
    intro s hs
    cases e with
    | stop =>
      rw [workerLoop_cons, loopBody_stop s hs, workerLoop_returned _ es rfl]
      rfl
    | tick now ok =>
      have hst := loopBody_tick_state s now ok hs
      have hret : (loopBody s (Event.tick now ok)).1.returned = false := by rw [hst]
      rw [workerLoop_cons, sentMessages_append, loopBody_tick_sent s now ok hs]
      simp [permits, ih _ hret]

theorem sent_workerLoop (es : List Event) :
    ∀ (s : WorkerState) (c : Nat), s.returned = false →
      ((permits es).length ≠ 0 → s.count = (c : Int)) →
      c + (permits es).length ≤ 9223372036854775808 →
      sentMessages (workerLoop s es).2 =
        ((permits es).enumFrom c).map
          (fun p => (⟨p.2.1, s.threadID, (p.1 : Int)⟩ : LoadTestMessage)) := by
  induction es with
  | nil => intro s c _ _ _; rfl
  | cons e es ih =>
    intro s c hs hc hb
    cases e with
    | stop =>
      rw [workerLoop_cons, loopBody_stop s hs, workerLoop_returned _ es rfl]
      rfl
    | tick now ok =>
      have hcount : s.count = (c : Int) := hc (by simp [permits])
      have hlen : (permits (Event.tick now ok :: es)).length = (permits es).length + 1 := by
        simp [permits]
      rw [hlen] at hb
      have hst := loopBody_tick_state s now ok hs
      have hret : (loopBody s (Event.tick now ok)).1.returned = false := by rw [hst]
      have hthr : (loopBody s (Event.tick now ok)).1.threadID = s.threadID := by rw [hst]
      have hnext : (permits es).length ≠ 0 →
          (loopBody s (Event.tick now ok)).1.count = ((c + 1 : Nat) : Int) := by
        intro hne
        rw [hst]
        show wrapInt64 (s.count + 1) = ((c + 1 : Nat) : Int)
        rw [hcount, wrapInt64_of_range _ (by omega) (by omega)]
        push_cast
        rfl
      rw [workerLoop_cons, sentMessages_append, loopBody_tick_sent s now ok hs,
        ih _ (c + 1) hret hnext (by omega), hthr, hcount]
      simp [permits, List.enumFrom]

theorem workerLoop_no_stop (es : List Event) :
    ∀ s : WorkerState, s.returned = false → Event.stop ∉ es →
      (workerLoop s es).1.returned = false := by
  induction es with
  | nil => intro s hs _; exact hs
  | cons e es ih =>
    intro s hs hns
    cases e with
    | stop => exact absurd (List.mem_cons_self _ _) hns
    | tick now ok =>
      have hst := loopBody_tick_state s now ok hs
      have hret : (loopBody s (Event.tick now ok)).1.returned = false := by rw [hst]
      rw [workerLoop_cons]
      exact ih _ hret (fun hmem => hns (List.mem_cons_of_mem _ hmem))

theorem workerLoop_ticks_state (b : Bool) (times : List Nat) :
    ∀ s : WorkerState, s.returned = false →
      (workerLoop s (times.map (fun t => Event.tick t b))).1 =
        (workerLoop s (times.map (fun t => Event.tick t true))).1 := by
  induction times with
  | nil => intro s _; rfl
  | cons t ts ih =>
    intro s hs
    have h1 := loopBody_tick_state s t b hs
    have h2 := loopBody_tick_state s t true hs
    have hret : (loopBody s (Event.tick t b)).1.returned = false := by rw [h1]
    simp only [List.map_cons, workerLoop_cons]
    rw [ih _ hret, h1, h2]

theorem workerLoop_ticks_returned (b : Bool) (times : List Nat) (s : WorkerState)
    (hs : s.returned = false) :
    (workerLoop s (times.map (fun t => Event.tick t b))).1.returned = false := by
  apply workerLoop_no_stop _ s hs
  simp

theorem permits_ticks (b : Bool) (times : List Nat) :
    permits (times.map (fun t => Event.tick t b)) = times.map (fun t => (t, b)) := by
  induction times with
  | nil => rfl
  | cons t ts ih => simp [permits, ih]

theorem permits_ticks_stop (b : Bool) (times : List Nat) (rest : List Event) :
    permits (times.map (fun t => Event.tick t b) ++ Event.stop :: rest) =
      times.map (fun t => (t, b)) := by
  induction times with
  | nil => rfl
  | cons t ts ih => simp [permits, ih]

theorem errors_length_failing (times : List Nat) :
    ∀ s : WorkerState, s.returned = false →
      (sendErrors (workerLoop s (times.map (fun t => Event.tick t false))).2).length =
        times.length := by
  induction times with
  | nil => intro s _; rfl
  | cons t ts ih =>
    intro s hs
    have h1 := loopBody_tick_state s t false hs
    have hret : (loopBody s (Event.tick t false)).1.returned = false := by rw [h1]
    simp only [List.map_cons, workerLoop_cons]
    rw [sendErrors_append, loopBody_tick_errors s t false hs]
    simp [ih _ hret]

theorem worker_ok (threadID R : Int) (events : List Event) (s : WorkerState)
    (out : List Effect) (h : worker threadID R events = Except.ok (s, out)) :
    ∃ s0, workerStart threadID R = Except.ok s0 ∧ workerLoop s0 events = (s, out) := by
  unfold worker at h
  cases hs : workerStart threadID R with
  | error p => rw [hs] at h; exact absurd h (by simp)
  | ok s0 =>
    rw [hs] at h
    exact ⟨s0, rfl, Except.ok.inj h⟩

/-- C1: for every worker id and every sequence of `select` outcomes, whatever the sends
return, the worker constructs one message per permit, and the k-th message (k = 0, 1, ...)
carries `ThreadID` equal to the worker id and `Count = k`. The counter is a Go `int`: the
statement covers the runs of at most 2^63 permits, the range in which `count` has not wrapped. -/
theorem worker_sequence_numbers (threadID R : Int) (events : List Event) (s : WorkerState)
    (out : List Effect) (h : worker threadID R events = Except.ok (s, out))
    (hn : (permits events).length ≤ 9223372036854775808) :
    (sentMessages out).length = (permits events).length ∧
    ∀ (k : Nat) (hk : k < (sentMessages out).length),
      ((sentMessages out).get ⟨k, hk⟩).ThreadID = threadID ∧
      ((sentMessages out).get ⟨k, hk⟩).Count = (k : Int) := by
  obtain ⟨s0, hs0, hloop⟩ := worker_ok threadID R events s out h
  obtain ⟨hid, hcount, hret, _⟩ := workerStart_fields threadID R s0 hs0
  have hout : out = (workerLoop s0 events).2 := by rw [hloop]
  have hsent := sent_workerLoop events s0 0 hret (fun _ => by simpa using hcount) (by omega)
  rw [← hout, hid] at hsent
  refine ⟨by rw [hsent]; simp, ?_⟩
  intro k hk
  have hk2 : k < (permits events).length := by
    rw [hsent] at hk
    simpa using hk
  have hget : (sentMessages out).get ⟨k, hk⟩ =
      ⟨((permits events).get ⟨k, hk2⟩).1, threadID, (k : Int)⟩ := by
    simp only [List.get_eq_getElem]
    simp [hsent, List.getElem_enumFrom]
  rw [hget]
  exact ⟨rfl, rfl⟩

/-- Witness of `worker_sequence_numbers`: worker 3 at 10 messages per second, two permits
(the second send fails), then stop. -/
theorem worker_sequence_numbers_witness :
    (sentMessages [Effect.send ⟨5, 3, 0⟩, Effect.send ⟨6, 3, 1⟩, Effect.sendError 3]).length =
      (permits [Event.tick 5 true, Event.tick 6 false, Event.stop, Event.tick 7 true]).length ∧
    ∀ (k : Nat)
      (hk : k < (sentMessages
        [Effect.send ⟨5, 3, 0⟩, Effect.send ⟨6, 3, 1⟩, Effect.sendError 3]).length),
      ((sentMessages [Effect.send ⟨5, 3, 0⟩, Effect.send ⟨6, 3, 1⟩, Effect.sendError 3]).get
        ⟨k, hk⟩).ThreadID = 3 ∧
      ((sentMessages [Effect.send ⟨5, 3, 0⟩, Effect.send ⟨6, 3, 1⟩, Effect.sendError 3]).get
        ⟨k, hk⟩).Count = (k : Int) :=
  worker_sequence_numbers 3 10
    [Event.tick 5 true, Event.tick 6 false, Event.stop, Event.tick 7 true]
    ⟨3, 100000000, 2, true⟩
    [Effect.send ⟨5, 3, 0⟩, Effect.send ⟨6, 3, 1⟩, Effect.sendError 3] rfl (by decide)

/-- C2: with a sender that fails on every call, after any number n of permits the worker
is still running, has made exactly n send attempts and reported exactly n send errors, and
its state is the one it has after n successful sends; in `GenerateLoad` a failed send
changes nothing but the log, so the failure is not propagated. -/
theorem failing_sender_never_stops_worker (threadID R : Int) (s0 : WorkerState)
    (h : workerStart threadID R = Except.ok s0) (times : List Nat) :
    (workerLoop s0 (times.map (fun t => Event.tick t false))).1.returned = false ∧
    (sentMessages (workerLoop s0 (times.map (fun t => Event.tick t false))).2).length =
      times.length ∧
    (sendErrors (workerLoop s0 (times.map (fun t => Event.tick t false))).2).length =
      times.length ∧
    (workerLoop s0 (times.map (fun t => Event.tick t false))).1 =
      (workerLoop s0 (times.map (fun t => Event.tick t true))).1 ∧
    (∀ (sys : Sys) (w : Nat),
      (step sys (Action.tick w false)).map (fun x => { x with effects := [] }) =
        (step sys (Action.tick w true)).map (fun x => { x with effects := [] })) := by
  obtain ⟨_, _, hret, _⟩ := workerStart_fields threadID R s0 h
  refine ⟨workerLoop_ticks_returned false times s0 hret, ?_,
    errors_length_failing times s0 hret, workerLoop_ticks_state false times s0 hret, ?_⟩
  · rw [sent_length_workerLoop _ s0 hret, permits_ticks]
    simp
  · intro sys w
    unfold step
    by_cases hex : sys.exited = true
    · simp [hex]
    · simp only [hex]
      cases hg : sys.workers[w]? with
      | none => simp
      | some g =>
        cases hph : g.phase with
        | created => simp [hph]
        | panicked p => simp [hph]
        | started ws =>
          by_cases hr : ws.returned = true
          · simp [hph, hr]
          · have hr2 : ws.returned = false := by simpa using hr
            simp [hph, hr2, loopBody_tick_state ws sys.now false hr2,
              loopBody_tick_state ws sys.now true hr2]

/-- Witness of `failing_sender_never_stops_worker`: worker 3 at 10 messages per second. -/
theorem failing_sender_never_stops_worker_witness :
    (workerLoop ⟨3, 100000000, 0, false⟩
      ([5, 6].map (fun t => Event.tick t false))).1.returned = false ∧
    (sentMessages (workerLoop ⟨3, 100000000, 0, false⟩
      ([5, 6].map (fun t => Event.tick t false))).2).length = [5, 6].length ∧
    (sendErrors (workerLoop ⟨3, 100000000, 0, false⟩
      ([5, 6].map (fun t => Event.tick t false))).2).length = [5, 6].length ∧
    (workerLoop ⟨3, 100000000, 0, false⟩ ([5, 6].map (fun t => Event.tick t false))).1 =
      (workerLoop ⟨3, 100000000, 0, false⟩ ([5, 6].map (fun t => Event.tick t true))).1 ∧
    (∀ (sys : Sys) (w : Nat),
      (step sys (Action.tick w false)).map (fun x => { x with effects := [] }) =
        (step sys (Action.tick w true)).map (fun x => { x with effects := [] })) :=
  failing_sender_never_stops_worker 3 10 ⟨3, 100000000, 0, false⟩ rfl [5, 6]

/-- C7: a worker leaves its loop only by observing the stop: after any finite sequence of
permits, with any send outcomes, that contains no stop it is still running; when it then
observes the stop it returns at once, with no further message constructed or sent, and
nothing that follows is executed. -/
theorem worker_exits_only_on_stop (threadID R : Int) (s0 : WorkerState)
    (h : workerStart threadID R = Except.ok s0) (events rest : List Event)
    (hns : Event.stop ∉ events) :
    (workerLoop s0 events).1.returned = false ∧
    (workerLoop s0 (events ++ Event.stop :: rest)).1.returned = true ∧
    (workerLoop s0 (events ++ Event.stop :: rest)).1.count = (workerLoop s0 events).1.count ∧
    (workerLoop s0 (events ++ Event.stop :: rest)).2 = (workerLoop s0 events).2 := by
  obtain ⟨_, _, hret, _⟩ := workerStart_fields threadID R s0 h
  have hrun := workerLoop_no_stop events s0 hret hns
  have hstop : workerLoop (workerLoop s0 events).1 (Event.stop :: rest) =
      (⟨(workerLoop s0 events).1.threadID, (workerLoop s0 events).1.ticker,
        (workerLoop s0 events).1.count, true⟩, []) := by
    rw [workerLoop_cons, loopBody_stop _ hrun, workerLoop_returned _ rest rfl]
    rfl
  rw [workerLoop_append, hstop]
  exact ⟨hrun, rfl, rfl, by simp⟩

/-- Witness of `worker_exits_only_on_stop`: worker 3 at 10 messages per second, two
permits, a stop, and a tick that is never served. -/
theorem worker_exits_only_on_stop_witness :
    (workerLoop ⟨3, 100000000, 0, false⟩
      [Event.tick 5 true, Event.tick 6 false]).1.returned = false ∧
    (workerLoop ⟨3, 100000000, 0, false⟩
      ([Event.tick 5 true, Event.tick 6 false] ++
        Event.stop :: [Event.tick 7 true])).1.returned = true ∧
    (workerLoop ⟨3, 100000000, 0, false⟩
      ([Event.tick 5 true, Event.tick 6 false] ++
        Event.stop :: [Event.tick 7 true])).1.count =
      (workerLoop ⟨3, 100000000, 0, false⟩ [Event.tick 5 true, Event.tick 6 false]).1.count ∧
    (workerLoop ⟨3, 100000000, 0, false⟩
      ([Event.tick 5 true, Event.tick 6 false] ++ Event.stop :: [Event.tick 7 true])).2 =
      (workerLoop ⟨3, 100000000, 0, false⟩ [Event.tick 5 true, Event.tick 6 false]).2 :=
  worker_exits_only_on_stop 3 10 ⟨3, 100000000, 0, false⟩ rfl
    [Event.tick 5 true, Event.tick 6 false] [Event.tick 7 true] (by decide)

/-! ## The worker under an ideal ticker -/

theorem served_length (I T : Nat) (hI : 0 < I) (stopFirst : Bool) :
    (servedTickTimes I T stopFirst).length =
      T / I - (if stopFirst = true ∧ I ∣ T then 1 else 0) := by
  unfold servedTickTimes idealTickTimes
  cases stopFirst with
  | false => simp
  | true =>
    simp only [Bool.not_true, Bool.or_false, true_and]
    have hdm : T / I * I ≤ T := Nat.div_mul_le_self T I
    generalize hn : T / I = n at hdm ⊢
    cases n with
    | zero => simp
    | succ m =>
      have hsucc : (m + 1) * I = m * I + I := Nat.succ_mul m I
      have hfirst : ((List.range m).map (fun k => (k + 1) * I)).filter
          (fun t => decide (t < T)) = (List.range m).map (fun k => (k + 1) * I) := by
        rw [List.filter_eq_self]
        intro t ht
        obtain ⟨k, hk, rfl⟩ := List.mem_map.1 ht
        have hkm : k + 1 ≤ m := by
          have := List.mem_range.1 hk
          omega
        have hmul : (k + 1) * I ≤ m * I := Nat.mul_le_mul_right I hkm
        simp only [decide_eq_true_eq]
        omega
      have hdvd : I ∣ T ↔ (m + 1) * I = T := by
        constructor
        · intro hd
          rw [← hn]
          exact Nat.div_mul_cancel hd
        · intro he
          exact Dvd.intro_left (m + 1) he
      rw [List.range_succ, List.map_append, List.filter_append, hfirst]
      by_cases hd : I ∣ T
      · have he := hdvd.1 hd
        simp [hd, he]
      · have hne : (m + 1) * I ≠ T := fun he => hd (hdvd.2 he)
        have hlt : (m + 1) * I < T := by omega
        simp [hd, hlt]

theorem idealWorker_sent (threadID R : Int) (T : Nat) (stopFirst : Bool) (h1 : 1 ≤ R)
    (h2 : R ≤ 1000000000) :
    ∃ r, idealWorker threadID R T stopFirst = Except.ok r ∧ r.1.returned = true ∧
      (sentMessages r.2).length =
        T / (1000000000 / R.toNat) -
          (if stopFirst = true ∧ 1000000000 / R.toNat ∣ T then 1 else 0) := by
  obtain ⟨n, rfl⟩ := Int.eq_ofNat_of_zero_le (show (0 : Int) ≤ R by omega)
  have hI : ((1000000000 : Int) / (n : Int)).toNat = 1000000000 / n := by
    have : ((1000000000 : Int) / (n : Int)) = ((1000000000 / n : Nat) : Int) := by
      norm_cast
    rw [this, Int.toNat_ofNat]
  have hpos : 0 < 1000000000 / n := Nat.div_pos (by omega) (by omega)
  have hstart := workerStart_of_valid threadID (n : Int) h1 h2
  refine ⟨workerLoop ⟨threadID, 1000000000 / (n : Int), 0, false⟩
    (idealEvents ((1000000000 : Int) / (n : Int)).toNat T stopFirst), ?_, ?_, ?_⟩
  · unfold idealWorker
    rw [hstart]
  · unfold idealEvents
    have hrun := workerLoop_ticks_returned true
      (servedTickTimes ((1000000000 : Int) / (n : Int)).toNat T stopFirst)
      ⟨threadID, 1000000000 / (n : Int), 0, false⟩ rfl
    rw [workerLoop_append, workerLoop_cons, loopBody_stop _ hrun, workerLoop_returned _ [] rfl]
  · rw [sent_length_workerLoop _ _ rfl]
    unfold idealEvents
    rw [permits_ticks_stop, hI, Int.toNat_ofNat, List.length_map, served_length _ _ hpos]

/-- C8, as stated, fails: at the rate R = 300000 the interval is 3333 ns, and a worker
served by an ideal ticker and stopped after T = 1 s has sent 300030 messages, 30 more
than `floor(T * R) = 300000`, however the last `select` is resolved. -/
theorem ideal_worker_overshoots :
    (∃ r, idealWorker 0 300000 1000000000 false = Except.ok r ∧
      (sentMessages r.2).length = 300030 ∧
      ¬ ((sentMessages r.2).length ≤ 1000000000 * 300000 / 1000000000 + 1)) ∧
    (∃ r, idealWorker 0 300000 1000000000 true = Except.ok r ∧
      (sentMessages r.2).length = 300030 ∧
      ¬ ((sentMessages r.2).length ≤ 1000000000 * 300000 / 1000000000 + 1)) := by
  have ht : Int.toNat 300000 = 300000 := rfl
  have hq : 1000000000 / 300000 = 3333 := by norm_num
  have hnd : ¬ (3333 ∣ 1000000000) := by decide
  have hd : 1000000000 / 3333 = 300030 := by norm_num
  constructor
  · obtain ⟨r, hr, _, hlen⟩ :=
      idealWorker_sent 0 300000 1000000000 false (by norm_num) (by norm_num)
    rw [ht, hq, hd] at hlen
    simp only [hnd, and_false, if_false, Nat.sub_zero] at hlen
    refine ⟨r, hr, hlen, ?_⟩
    rw [hlen]
    norm_num
  · obtain ⟨r, hr, _, hlen⟩ :=
      idealWorker_sent 0 300000 1000000000 true (by norm_num) (by norm_num)
    rw [ht, hq, hd] at hlen
    simp only [hnd, and_false, if_false, Nat.sub_zero] at hlen
    refine ⟨r, hr, hlen, ?_⟩
    rw [hlen]
    norm_num

/-- C8, amended: for every rate `1 ≤ R ≤ 1000000000` and every elapsed time T (ns), a
worker served by an ideal ticker of the computed interval `1000000000 / R` ns and an
always-succeeding zero-latency sender has, when stopped at T, sent `floor(T / interval)`
messages, or one fewer when a tick is due exactly at T and the `select` takes the stop
first. The count is therefore within 1 of `floor(T / interval)` and at least
`floor(T * R) - 1` (T in seconds), and it is within 1 of `floor(T * R)` when R divides
1000000000. -/
theorem ideal_worker_sent_count (threadID R : Int) (T : Nat) (stopFirst : Bool)
    (h1 : 1 ≤ R) (h2 : R ≤ 1000000000) :
    ∃ r, idealWorker threadID R T stopFirst = Except.ok r ∧ r.1.returned = true ∧
      (sentMessages r.2).length =
        T / (1000000000 / R.toNat) -
          (if stopFirst = true ∧ 1000000000 / R.toNat ∣ T then 1 else 0) ∧
      (sentMessages r.2).length ≤ T / (1000000000 / R.toNat) ∧
      T / (1000000000 / R.toNat) ≤ (sentMessages r.2).length + 1 ∧
      T * R.toNat / 1000000000 ≤ (sentMessages r.2).length + 1 ∧
      (R ∣ 1000000000 →
        (sentMessages r.2).length ≤ T * R.toNat / 1000000000 ∧
        T * R.toNat / 1000000000 ≤ (sentMessages r.2).length + 1) := by
  obtain ⟨r, hr, hret, hlen⟩ := idealWorker_sent threadID R T stopFirst h1 h2
  obtain ⟨n, rfl⟩ := Int.eq_ofNat_of_zero_le (show (0 : Int) ≤ R by omega)
  rw [Int.toNat_ofNat] at hlen
  rw [Int.toNat_ofNat]
  have hn : 0 < n := by omega
  have hn2 : n ≤ 1000000000 := by omega
  have hI : 0 < 1000000000 / n := Nat.div_pos hn2 hn
  have hmul : 1000000000 / n * n ≤ 1000000000 := Nat.div_mul_le_self 1000000000 n
  have hcancel : T * n / (1000000000 / n * n) = T / (1000000000 / n) :=
    Nat.mul_div_mul_right T (1000000000 / n) hn
  have hfloor : T * n / 1000000000 ≤ T / (1000000000 / n) := by
    rw [← hcancel]
    exact Nat.div_le_div_left hmul (Nat.mul_pos hI hn)
  have hup : (sentMessages r.2).length ≤ T / (1000000000 / n) := by
    rw [hlen]
    exact Nat.sub_le _ _
  have hlow : T / (1000000000 / n) ≤ (sentMessages r.2).length + 1 := by
    rw [hlen]
    split_ifs <;> omega
  refine ⟨r, hr, hret, hlen, hup, hlow, by omega, ?_⟩
  intro hdvd
  have hdvd2 : n ∣ 1000000000 := by exact_mod_cast hdvd
  have heq : T * n / 1000000000 = T / (1000000000 / n) := by
    rw [← hcancel, Nat.div_mul_cancel hdvd2]
  rw [heq]
  exact ⟨hup, hlow⟩

/-- Witness of `ideal_worker_sent_count`: worker 0 at 10 messages per second, stopped
after 200 ms, when the second tick is due, with the stop taken first. -/
theorem ideal_worker_sent_count_witness :
    ((1 : Int) ≤ 10 ∧ (10 : Int) ≤ 1000000000) ∧
    ∃ r, idealWorker 0 10 200000000 true = Except.ok r ∧ r.1.returned = true ∧
      (sentMessages r.2).length =
        200000000 / (1000000000 / (10 : Int).toNat) -
          (if true = true ∧ 1000000000 / (10 : Int).toNat ∣ 200000000 then 1 else 0) ∧
      (sentMessages r.2).length ≤ 200000000 / (1000000000 / (10 : Int).toNat) ∧
      200000000 / (1000000000 / (10 : Int).toNat) ≤ (sentMessages r.2).length + 1 ∧
      200000000 * (10 : Int).toNat / 1000000000 ≤ (sentMessages r.2).length + 1 ∧
      ((10 : Int) ∣ 1000000000 →
        (sentMessages r.2).length ≤ 200000000 * (10 : Int).toNat / 1000000000 ∧
        200000000 * (10 : Int).toNat / 1000000000 ≤ (sentMessages r.2).length + 1) :=
  ⟨⟨by decide, by decide⟩,
    ideal_worker_sent_count 0 10 200000000 true (by decide) (by decide)⟩

/-! ## The transition system of GenerateLoad -/

theorem length_setPhase (ws : List Goroutine) (w : Nat) (ph : Phase) :
    (setPhase ws w ph).length = ws.length := by
  induction ws generalizing w with
  | nil => rfl
  | cons g gs ih => cases w <;> simp [setPhase, ih]

theorem map_args_setPhase (ws : List Goroutine) (w : Nat) (ph : Phase) :
    (setPhase ws w ph).map (fun g => (g.threadID, g.messagesPerSec, g.stopCh)) =
      ws.map (fun g => (g.threadID, g.messagesPerSec, g.stopCh)) := by
  induction ws generalizing w with
  | nil => rfl
  | cons g gs ih => cases w <;> simp [setPhase, ih]

theorem mem_setPhase (ws : List Goroutine) (w : Nat) (ph : Phase) (x : Goroutine)
    (hx : x ∈ setPhase ws w ph) :
    x ∈ ws ∨ ∃ g, ws[w]? = some g ∧ x = ⟨g.threadID, g.messagesPerSec, g.stopCh, ph⟩ := by
  induction ws generalizing w with
  | nil => simp [setPhase] at hx
  | cons g gs ih =>
    cases w with
    | zero =>
      simp only [setPhase, List.mem_cons] at hx
      rcases hx with hx | hx
      · exact Or.inr ⟨g, by simp, hx⟩
      · exact Or.inl (List.mem_cons_of_mem _ hx)
    | succ w =>
      simp only [setPhase, List.mem_cons] at hx
      rcases hx with hx | hx
      · exact Or.inl (by rw [hx]; exact List.mem_cons_self _ _)
      · rcases ih w hx with h | ⟨g2, hg2, hx2⟩
        · exact Or.inl (List.mem_cons_of_mem _ h)
        · exact Or.inr ⟨g2, by simpa using hg2, hx2⟩

theorem mem_of_get? (ws : List Goroutine) (w : Nat) (g : Goroutine)
    (h : ws[w]? = some g) : g ∈ ws :=
  List.getElem?_mem h

theorem live_append_one (ws : List Goroutine) (g : Goroutine) :
    live (ws ++ [g]) = live ws + (if hasTerminated g = true then 0 else 1) := by
  unfold live
  rw [List.countP_append]
  cases h : hasTerminated g <;> simp [List.countP_cons, h]

theorem live_setPhase (ws : List Goroutine) (w : Nat) (g : Goroutine) (ph : Phase)
    (hg : ws[w]? = some g) (hold : hasTerminated g = false) :
    live (setPhase ws w ph) +
      (if hasTerminated ⟨g.threadID, g.messagesPerSec, g.stopCh, ph⟩ = true then 1 else 0) =
      live ws := by
  induction ws generalizing w with
  | nil => simp at hg
  | cons x xs ih =>
    cases w with
    | zero =>
      have hx : x = g := by simpa using hg
      subst hx
      unfold live
      simp only [setPhase, List.countP_cons, hold]
      cases hasTerminated ⟨x.threadID, x.messagesPerSec, x.stopCh, ph⟩ <;> simp
    | succ w =>
      have hg2 : xs[w]? = some g := by simpa using hg
      have := ih w hg2
      unfold live at this ⊢
      simp only [setPhase, List.countP_cons]
      omega

theorem all_terminated_of_live_zero (ws : List Goroutine) (h : live ws = 0) :
    ∀ g ∈ ws, hasTerminated g = true := by
  intro g hg
  unfold live at h
  rw [List.countP_eq_zero] at h
  simpa using h g hg

theorem Inv_arg {N R D : Int} {s : Sys} (hinv : Inv N R D s) (w : Nat) (g : Goroutine)
    (hg : s.workers[w]? = some g) :
    g.threadID = (w : Int) ∧ g.messagesPerSec = R ∧ g.stopCh = 0 := by
  obtain ⟨hlt, _⟩ := List.getElem?_eq_some.1 hg
  have h := hinv.args
  unfold spawnArgs at h
  have h2 : (s.workers.map (fun g => (g.threadID, g.messagesPerSec, g.stopCh)))[w]? =
      ((List.range s.workers.length).map (fun (k : Nat) => ((k : Int), R, 0)))[w]? := by
    rw [h]
  rw [List.getElem?_map, List.getElem?_map, hg, List.getElem?_range hlt] at h2
  simp only [Option.map_some', Option.some.injEq, Prod.mk.injEq] at h2
  exact h2

theorem Inv_mem {N R D : Int} {s : Sys} (hinv : Inv N R D s) (g : Goroutine)
    (hg : g ∈ s.workers) : g.messagesPerSec = R ∧ g.stopCh = 0 := by
  obtain ⟨n, hn⟩ := List.getElem?_of_mem hg
  exact (Inv_arg hinv n g hn).2

theorem Inv_no_worker {N R D : Int} {s : Sys} (hinv : Inv N R D s) (hN : N ≤ 0) :
    s.workers = [] := by
  apply List.eq_nil_of_length_eq_zero
  cases hc : s.ctrl with
  | spawning i =>
    have := hinv.loop i hc
    omega
  | waiting =>
    have := hinv.spawned (by intro i; rw [hc]; simp)
    omega
  | returned =>
    have := hinv.spawned (by intro i; rw [hc]; simp)
    omega

theorem step_not_exited (s : Sys) (a : Action) (s2 : Sys) (h : step s a = some s2) :
    s.exited = false := by
  unfold step at h
  by_cases hex : s.exited = true
  · simp [hex] at h
  · simpa using hex

theorem step_start (s : Sys) (w : Nat) (s2 : Sys) (h : step s (Action.start w) = some s2) :
    ∃ g, s.workers[w]? = some g ∧ g.phase = Phase.created ∧
      ((∃ ws, workerStart g.threadID g.messagesPerSec = Except.ok ws ∧
          s2 = { s with workers := setPhase s.workers w (Phase.started ws) }) ∨
       (∃ p, workerStart g.threadID g.messagesPerSec = Except.error p ∧
          s2 = { s with workers := setPhase s.workers w (Phase.panicked p), wg := s.wg - 1 })) := by
  have hex := step_not_exited s _ s2 h
  unfold step at h
  simp only [hex] at h
  cases hg : s.workers[w]? with
  | none => simp [hg] at h
  | some g =>
    cases hph : g.phase with
    | started ws => simp [hg, hph] at h
    | panicked p => simp [hg, hph] at h
    | created =>
      cases hws : workerStart g.threadID g.messagesPerSec with
      | ok ws =>
        simp only [hg, hph, hws] at h
        exact ⟨g, rfl, hph, Or.inl ⟨ws, hws, by simpa [hex] using h.symm⟩⟩
      | error p =>
        simp only [hg, hph, hws] at h
        exact ⟨g, rfl, hph, Or.inr ⟨p, hws, by simpa [hex] using h.symm⟩⟩

theorem step_tick (s : Sys) (w : Nat) (ok : Bool) (s2 : Sys)
    (h : step s (Action.tick w ok) = some s2) :
    ∃ g ws, s.workers[w]? = some g ∧ g.phase = Phase.started ws ∧ ws.returned = false ∧
      s2 = { s with
        workers := setPhase s.workers w (Phase.started (loopBody ws (Event.tick s.now ok)).1)
        effects := s.effects ++ (loopBody ws (Event.tick s.now ok)).2 } := by
  have hex := step_not_exited s _ s2 h
  unfold step at h
  simp only [hex] at h
  cases hg : s.workers[w]? with
  | none => simp [hg] at h
  | some g =>
    cases hph : g.phase with
    | created => simp [hg, hph] at h
    | panicked p => simp [hg, hph] at h
    | started ws =>
      cases hr : ws.returned with
      | true => simp [hg, hph, hr] at h
      | false =>
        simp only [hg, hph, hr] at h
        exact ⟨g, ws, rfl, hph, hr, by simpa [hex] using h.symm⟩

theorem step_stop (s : Sys) (w : Nat) (s2 : Sys) (h : step s (Action.stop w) = some s2) :
    ∃ g ws, s.workers[w]? = some g ∧ g.phase = Phase.started ws ∧ ws.returned = false ∧
      g.stopCh = s.stopCh ∧ s.stopClosed = true ∧
      s2 = { s with
        workers := setPhase s.workers w (Phase.started ⟨ws.threadID, ws.ticker, ws.count, true⟩)
        wg := s.wg - 1 } := by
  have hex := step_not_exited s _ s2 h
  unfold step at h
  simp only [hex] at h
  cases hg : s.workers[w]? with
  | none => simp [hg] at h
  | some g =>
    cases hph : g.phase with
    | created => simp [hg, hph] at h
    | panicked p => simp [hg, hph] at h
    | started ws =>
      cases hr : ws.returned with
      | true => simp [hg, hph, hr] at h
      | false =>
        simp only [hg, hph, hr] at h
        by_cases hc : g.stopCh = s.stopCh ∧ s.stopClosed = true
        · refine ⟨g, ws, rfl, hph, hr, hc.1, hc.2, ?_⟩
          simp only [loopBody_stop ws hr] at h
          simpa [hex, hc] using h.symm
        · simp [hc] at h

theorem Inv_init (N R D : Int) : Inv N R D (GenerateLoad N R D) := by
  refine ⟨rfl, rfl, rfl, rfl, rfl, ?_, ?_, ?_, ?_, ?_, ?_, ?_, rfl, ?_, ?_, ?_, ?_⟩
  · intro i hi
    have : i = 0 := by
      simp only [GenerateLoad, Ctrl.spawning.injEq] at hi
      exact hi.symm
    subst this
    exact ⟨rfl, Or.inr rfl⟩
  · intro h
    exact absurd rfl (h 0)
  · by_cases hD : D > 0
    · simp only [GenerateLoad, if_pos hD]
      constructor
      · intro h
        exact absurd h (by simp)
      · intro h
        omega
    · simp only [GenerateLoad, if_neg hD]
      constructor
      · intro _
        omega
      · intro _
        trivial
  · by_cases hD : D > 0
    · simp [GenerateLoad, hD]
    · simp [GenerateLoad, hD]
  · intro wake h
    by_cases hD : D > 0
    · simp [GenerateLoad, hD] at h
    · simp [GenerateLoad, hD] at h
  · intro h
    by_cases hD : D > 0
    · simp [GenerateLoad, hD] at h
    · simp [GenerateLoad, hD] at h
  · intro g hg
    simp [GenerateLoad] at hg
  · intro h
    simp [GenerateLoad] at h
  · intro _ g hg
    simp [GenerateLoad] at hg
  · intro _ g hg
    simp [GenerateLoad] at hg
  · intro _
    rfl

theorem Inv_update {N R D : Int} {s : Sys} (hinv : Inv N R D s) {w : Nat} {g : Goroutine}
    (hg : s.workers[w]? = some g) (hold : hasTerminated g = false) (ph : Phase) (wg2 : Int)
    (eff : List Effect)
    (hwg : wg2 = s.wg -
      (if hasTerminated ⟨g.threadID, g.messagesPerSec, g.stopCh, ph⟩ = true then 1 else 0))
    (hret : hasReturned ⟨g.threadID, g.messagesPerSec, g.stopCh, ph⟩ = true →
      s.stopClosed = true)
    (hvalid : (1 ≤ R ∧ R ≤ 1000000000) → ∀ p, ph ≠ Phase.panicked p)
    (hinvalid : ¬ (1 ≤ R ∧ R ≤ 1000000000) → ∀ ws, ph ≠ Phase.started ws)
    (heff : (∃ ws, g.phase = Phase.started ws) ∨ eff = s.effects) :
    Inv N R D { s with workers := setPhase s.workers w ph, effects := eff, wg := wg2 } := by
  have hmem := mem_of_get? s.workers w g hg
  have hlen := length_setPhase s.workers w ph
  refine ⟨hinv.cfgN, hinv.cfgR, hinv.cfgD, hinv.cfgCh, ?_, ?_, ?_, hinv.timerAbsent,
    hinv.closed, hinv.sleep, hinv.deadline, ?_, ?_, ?_, ?_, ?_, ?_⟩
  · show (setPhase s.workers w ph).map (fun g => (g.threadID, g.messagesPerSec, g.stopCh)) = _
    rw [map_args_setPhase]
    show _ = (List.range (setPhase s.workers w ph).length).map _
    rw [hlen]
    exact hinv.args
  · intro i hi
    show i = ((setPhase s.workers w ph).length : Int) ∧ _
    rw [hlen]
    exact hinv.loop i hi
  · intro h
    show (setPhase s.workers w ph).length = _
    rw [hlen]
    exact hinv.spawned h
  · intro x hx hxr
    rcases mem_setPhase s.workers w ph x hx with h | ⟨g2, hg2, hx2⟩
    · exact hinv.ret x h hxr
    · have : g2 = g := by
        rw [hg] at hg2
        exact (Option.some.inj hg2).symm
      subst this
      subst hx2
      exact hret hxr
  · show wg2 = ((live (setPhase s.workers w ph) : Nat) : Int)
    have h1 := live_setPhase s.workers w g ph hg hold
    have h2 := hinv.wgLive
    rw [hwg]
    split_ifs at h1 ⊢ <;> omega
  · intro hc
    have := hinv.done hc g hmem
    rw [hold] at this
    exact absurd this (by simp)
  · intro hv x hx p
    rcases mem_setPhase s.workers w ph x hx with h | ⟨g2, _, hx2⟩
    · exact hinv.valid hv x h p
    · subst hx2
      exact hvalid hv p
  · intro hv x hx ws
    rcases mem_setPhase s.workers w ph x hx with h | ⟨g2, _, hx2⟩
    · exact hinv.invalid hv x h ws
    · subst hx2
      exact hinvalid hv ws
  · intro hq
    show eff = []
    rcases heff with ⟨ws, hws⟩ | he
    · rcases hq with hN | hv
      · have := Inv_no_worker hinv hN
        rw [this] at hmem
        exact absurd hmem (by simp)
      · exact absurd hws (hinv.invalid hv g hmem ws)
    · rw [he]
      exact hinv.quiet hq

theorem Inv_step {N R D : Int} {s : Sys} (hinv : Inv N R D s) (a : Action) (s2 : Sys)
    (h : step s a = some s2) : Inv N R D s2 := by
  have hex := step_not_exited s a s2 h
  cases a with
  | elapse dt =>
    have h2 : s2 = { s with now := s.now + dt } := by
      unfold step at h
      simpa [hex] using h.symm
    subst h2
    refine ⟨hinv.cfgN, hinv.cfgR, hinv.cfgD, hinv.cfgCh, hinv.args, hinv.loop, hinv.spawned,
      hinv.timerAbsent, hinv.closed, hinv.sleep, ?_, hinv.ret, hinv.wgLive, hinv.done,
      hinv.valid, hinv.invalid, hinv.quiet⟩
    intro hc
    have := hinv.deadline hc
    show D ≤ ((s.now + dt : Nat) : Int)
    omega
  | spawn =>
    unfold step at h
    simp only [hex] at h
    cases hc : s.ctrl with
    | waiting => simp [hc] at h
    | returned => simp [hc] at h
    | spawning i =>
      simp only [hc] at h
      obtain ⟨hi, hiN⟩ := hinv.loop i hc
      by_cases hlt : i < s.numThreads
      · have h2 : s2 = { s with
            wg := s.wg + 1
            workers := s.workers ++ [⟨i, s.messagesPerSec, s.stopCh, Phase.created⟩]
            ctrl := Ctrl.spawning (i + 1) } := by
          simpa [hex, hlt] using h.symm
        subst h2
        have hltN : i < N := by rw [← hinv.cfgN]; exact hlt
        refine ⟨hinv.cfgN, hinv.cfgR, hinv.cfgD, hinv.cfgCh, ?_, ?_, ?_, hinv.timerAbsent,
          hinv.closed, hinv.sleep, hinv.deadline, ?_, ?_, ?_, ?_, ?_, hinv.quiet⟩
        · have hargs := hinv.args
          unfold spawnArgs at hargs ⊢
          simp only [List.map_append, List.length_append, List.length_singleton,
            List.range_succ, List.map_cons, List.map_nil]
          rw [hargs, hi, hinv.cfgR, hinv.cfgCh]
        · intro j hj
          have hj2 : j = i + 1 := by
            simp only [Ctrl.spawning.injEq] at hj
            exact hj.symm
          subst hj2
          simp only [List.length_append, List.length_singleton]
          push_cast
          exact ⟨by omega, Or.inl (by omega)⟩
        · intro hne
          exact absurd rfl (hne (i + 1))
        · intro x hx hxr
          simp only [List.mem_append, List.mem_singleton] at hx
          rcases hx with hx | hx
          · exact hinv.ret x hx hxr
          · subst hx
            simp [hasReturned] at hxr
        · show s.wg + 1 = _
          rw [live_append_one, hinv.wgLive]
          simp [hasTerminated]
        · intro hcr
          simp at hcr
        · intro hv x hx p
          simp only [List.mem_append, List.mem_singleton] at hx
          rcases hx with hx | hx
          · exact hinv.valid hv x hx p
          · subst hx
            simp
        · intro hv x hx ws
          simp only [List.mem_append, List.mem_singleton] at hx
          rcases hx with hx | hx
          · exact hinv.invalid hv x hx ws
          · subst hx
            simp
      · have h2 : s2 = { s with ctrl := Ctrl.waiting } := by
          simpa [hex, hlt] using h.symm
        subst h2
        have hge : ¬ i < N := by rw [← hinv.cfgN]; exact hlt
        refine ⟨hinv.cfgN, hinv.cfgR, hinv.cfgD, hinv.cfgCh, hinv.args, ?_, ?_,
          hinv.timerAbsent, hinv.closed, hinv.sleep, hinv.deadline, hinv.ret, hinv.wgLive,
          ?_, hinv.valid, hinv.invalid, hinv.quiet⟩
        · intro j hj
          simp at hj
        · intro _
          show s.workers.length = N.toNat
          omega
        · intro hcr
          simp at hcr
  | timerSleep =>
    unfold step at h
    simp only [hex] at h
    cases ht : s.timer with
    | absent => simp [ht] at h
    | sleeping wake => simp [ht] at h
    | closed => simp [ht] at h
    | created =>
      have h2 : s2 = { s with timer := Timer.sleeping (s.now + s.duration.toNat) } := by
        simpa [hex, ht] using h.symm
      subst h2
      have hD : ¬ D ≤ 0 := fun hle => by
        have := hinv.timerAbsent.2 hle
        rw [ht] at this
        exact absurd this (by simp)
      have hnc : s.stopClosed ≠ true := fun hcl => by
        have := hinv.closed.1 hcl
        rw [ht] at this
        exact absurd this (by simp)
      refine ⟨hinv.cfgN, hinv.cfgR, hinv.cfgD, hinv.cfgCh, hinv.args, hinv.loop, hinv.spawned,
        ?_, ?_, ?_, ?_, hinv.ret, hinv.wgLive, hinv.done, hinv.valid, hinv.invalid, hinv.quiet⟩
      · exact ⟨fun h => absurd h (by simp), fun h => absurd h hD⟩
      · exact ⟨fun h => absurd h hnc, fun h => absurd h (by simp)⟩
      · intro wake hw
        have hw2 : wake = s.now + s.duration.toNat := by
          simp only [Timer.sleeping.injEq] at hw
          exact hw.symm
        rw [hw2, hinv.cfgD]
        push_cast
        omega
      · intro hcl
        exact absurd hcl (by simp)
  | timerClose =>
    unfold step at h
    simp only [hex] at h
    cases ht : s.timer with
    | absent => simp [ht] at h
    | created => simp [ht] at h
    | closed => simp [ht] at h
    | sleeping wake =>
      simp only [ht] at h
      by_cases hw : wake ≤ s.now
      · have h2 : s2 = { s with timer := Timer.closed, stopClosed := true } := by
          simpa [hex, hw] using h.symm
        subst h2
        have hD : ¬ D ≤ 0 := fun hle => by
          have := hinv.timerAbsent.2 hle
          rw [ht] at this
          exact absurd this (by simp)
        have hs := hinv.sleep wake ht
        refine ⟨hinv.cfgN, hinv.cfgR, hinv.cfgD, hinv.cfgCh, hinv.args, hinv.loop, hinv.spawned,
          ?_, ?_, ?_, ?_, ?_, hinv.wgLive, hinv.done, hinv.valid, hinv.invalid, hinv.quiet⟩
        · exact ⟨fun h => absurd h (by simp), fun h => absurd h hD⟩
        · exact ⟨fun _ => rfl, fun _ => rfl⟩
        · intro w2 hw2
          exact absurd hw2 (by simp)
        · intro _
          show D ≤ (s.now : Int)
          omega
        · intro _ _ _
          rfl
      · simp [hw] at h
  | start w =>
    obtain ⟨g, hg, hph, hcase⟩ := step_start s w s2 h
    have hold : hasTerminated g = false := by simp [hasTerminated, hph]
    obtain ⟨_, hgR, _⟩ := Inv_arg hinv w g hg
    rcases hcase with ⟨ws, hws, h2⟩ | ⟨p, hp, h2⟩
    · subst h2
      obtain ⟨_, _, hwr, _⟩ := workerStart_fields _ _ ws hws
      apply Inv_update hinv hg hold (Phase.started ws) s.wg s.effects
      · simp [hasTerminated, hwr]
      · intro hr
        simp [hasReturned, hwr] at hr
      · intro _ p
        simp
      · intro hv ws2 _
        obtain ⟨q, hq⟩ := workerStart_of_invalid g.threadID R hv
        rw [hgR, hq] at hws
        exact absurd hws (by simp)
      · exact Or.inr rfl
    · subst h2
      apply Inv_update hinv hg hold (Phase.panicked p) (s.wg - 1) s.effects
      · simp [hasTerminated]
      · intro hr
        simp [hasReturned] at hr
      · intro hv q _
        rw [hgR, workerStart_of_valid g.threadID R hv.1 hv.2] at hp
        exact absurd hp (by simp)
      · intro _ ws
        simp
      · exact Or.inr rfl
  | tick w ok =>
    obtain ⟨g, ws, hg, hph, hr, h2⟩ := step_tick s w ok s2 h
    subst h2
    have hold : hasTerminated g = false := by simp [hasTerminated, hph, hr]
    have hst := loopBody_tick_state ws s.now ok hr
    apply Inv_update hinv hg hold _ s.wg _
    · rw [hst]
      simp [hasTerminated]
    · rw [hst]
      intro hret
      simp [hasReturned] at hret
    · intro _ p
      simp
    · intro hv ws2 _
      exact hinv.invalid hv g (mem_of_get? _ _ _ hg) ws hph
    · exact Or.inl ⟨ws, hph⟩
  | stop w =>
    obtain ⟨g, ws, hg, hph, hr, _, hcl, h2⟩ := step_stop s w s2 h
    subst h2
    have hold : hasTerminated g = false := by simp [hasTerminated, hph, hr]
    apply Inv_update hinv hg hold _ (s.wg - 1) s.effects
    · simp [hasTerminated]
    · intro _
      exact hcl
    · intro _ p
      simp
    · intro hv ws2 _
      exact hinv.invalid hv g (mem_of_get? _ _ _ hg) ws hph
    · exact Or.inr rfl
  | wait =>
    unfold step at h
    simp only [hex] at h
    cases hc : s.ctrl with
    | spawning i => simp [hc] at h
    | returned => simp [hc] at h
    | waiting =>
      simp only [hc] at h
      by_cases hz : s.wg = 0
      · have h2 : s2 = { s with ctrl := Ctrl.returned } := by
          simpa [hex, hz] using h.symm
        subst h2
        have hsp := hinv.spawned (by intro i; rw [hc]; simp)
        refine ⟨hinv.cfgN, hinv.cfgR, hinv.cfgD, hinv.cfgCh, hinv.args, ?_, ?_,
          hinv.timerAbsent, hinv.closed, hinv.sleep, hinv.deadline, hinv.ret, hinv.wgLive,
          ?_, hinv.valid, hinv.invalid, hinv.quiet⟩
        · intro j hj
          simp at hj
        · intro _
          exact hsp
        · intro _
          apply all_terminated_of_live_zero
          show live s.workers = 0
          have := hinv.wgLive
          omega
      · simp [hz] at h
  | signal =>
    have h2 : s2 = { s with exited := true } := by
      unfold step at h
      simpa [hex] using h.symm
    subst h2
    exact ⟨hinv.cfgN, hinv.cfgR, hinv.cfgD, hinv.cfgCh, hinv.args, hinv.loop, hinv.spawned,
      hinv.timerAbsent, hinv.closed, hinv.sleep, hinv.deadline, hinv.ret, hinv.wgLive,
      hinv.done, hinv.valid, hinv.invalid, hinv.quiet⟩
  | crash =>
    unfold step at h
    simp only [hex] at h
    by_cases hp : anyPanicked s.workers = true
    · have h2 : s2 = { s with exited := true } := by
        simpa [hex, hp] using h.symm
      subst h2
      exact ⟨hinv.cfgN, hinv.cfgR, hinv.cfgD, hinv.cfgCh, hinv.args, hinv.loop, hinv.spawned,
        hinv.timerAbsent, hinv.closed, hinv.sleep, hinv.deadline, hinv.ret, hinv.wgLive,
        hinv.done, hinv.valid, hinv.invalid, hinv.quiet⟩
    · simp [hp] at h

theorem Inv_exec {N R D : Int} (sched : List Action) :
    ∀ (s s2 : Sys), Inv N R D s → exec s sched = some s2 → Inv N R D s2 := by
  induction sched with
  | nil =>
    intro s s2 hinv h
    have : s = s2 := by simpa [exec] using h
    rw [← this]
    exact hinv
  | cons a as ih =>
    intro s s2 hinv h
    unfold exec at h
    cases hs : step s a with
    | none => simp [hs] at h
    | some s1 =>
      rw [hs] at h
      exact ih s1 s2 (Inv_step hinv a s1 hs) h

theorem Inv_reach (N R D : Int) (sched : List Action) (s : Sys)
    (h : exec (GenerateLoad N R D) sched = some s) : Inv N R D s :=
  Inv_exec sched _ s (Inv_init N R D) h

theorem exec_append (s : Sys) (as bs : List Action) :
    exec s (as ++ bs) =
      match exec s as with
      | some s1 => exec s1 bs
      | none => none := by
  induction as generalizing s with
  | nil => rfl
  | cons a as ih =>
    simp only [List.cons_append, exec]
    cases step s a with
    | none => rfl
    | some s1 => exact ih s1

theorem spawn_run (N R D : Int) (k : Nat) (hk : (k : Int) ≤ N) :
    ∃ s, exec (GenerateLoad N R D) (List.replicate k Action.spawn) = some s ∧
      s.ctrl = Ctrl.spawning (k : Int) ∧ s.exited = false ∧ s.numThreads = N := by
  induction k with
  | zero => exact ⟨GenerateLoad N R D, rfl, rfl, rfl, rfl⟩
  | succ k ih =>
    obtain ⟨s, hs, hc, hex, hn⟩ := ih (by push_cast at hk; omega)
    have hlt : (k : Int) < s.numThreads := by push_cast at hk; omega
    refine ⟨{ s with
      wg := s.wg + 1
      workers := s.workers ++ [⟨(k : Int), s.messagesPerSec, s.stopCh, Phase.created⟩]
      ctrl := Ctrl.spawning ((k : Int) + 1) }, ?_, ?_, hex, hn⟩
    · rw [List.replicate_succ', exec_append, hs]
      simp [exec, step, hex, hc, hlt]
    · push_cast
      rfl

theorem spawn_loop_completes (N R D : Int) (hN : 0 ≤ N) :
    ∃ s, exec (GenerateLoad N R D) (List.replicate (N.toNat + 1) Action.spawn) = some s ∧
      s.ctrl = Ctrl.waiting := by
  obtain ⟨n, rfl⟩ := Int.eq_ofNat_of_zero_le hN
  rw [Int.toNat_ofNat]
  obtain ⟨s, hs, hc, hex, hn⟩ := spawn_run (n : Int) R D n le_rfl
  have hge : ¬ ((n : Int) < s.numThreads) := by omega
  refine ⟨{ s with ctrl := Ctrl.waiting }, ?_, rfl⟩
  rw [List.replicate_succ', exec_append, hs]
  simp [exec, step, hex, hc, hge]

/-- C9: for every worker count N ≥ 0 and rate R, the loop of `GenerateLoad` completes, and
once it has, exactly N workers have been started, with the ids 0, 1, ..., N-1 (pairwise
distinct), each given the same rate R and the one stop channel of the call; the deadline
timer goroutine exists if and only if `duration > 0`. -/
theorem generate_load_spawns (N R D : Int) (hN : 0 ≤ N) :
    (∃ s, exec (GenerateLoad N R D) (List.replicate (N.toNat + 1) Action.spawn) = some s ∧
      s.ctrl = Ctrl.waiting) ∧
    ∀ (sched : List Action) (s : Sys), exec (GenerateLoad N R D) sched = some s →
      (s.timer ≠ Timer.absent ↔ 0 < D) ∧
      ((∀ i, s.ctrl ≠ Ctrl.spawning i) →
        (s.workers.length : Int) = N ∧
        spawnArgs s = (List.range N.toNat).map (fun (k : Nat) => ((k : Int), R, s.stopCh)) ∧
        (s.workers.map (fun g => g.threadID)).Nodup) := by
  refine ⟨spawn_loop_completes N R D hN, ?_⟩
  intro sched s h
  have hinv := Inv_reach N R D sched s h
  refine ⟨?_, ?_⟩
  · rw [Ne, hinv.timerAbsent]
    omega
  · intro hc
    have hlen := hinv.spawned hc
    have hargs := hinv.args
    rw [hlen] at hargs
    refine ⟨by omega, by rw [hargs, hinv.cfgCh], ?_⟩
    have hids : s.workers.map (fun g => g.threadID) = (spawnArgs s).map (fun a => a.1) := by
      unfold spawnArgs
      rw [List.map_map]
      rfl
    rw [hids, hargs, List.map_map]
    apply List.Nodup.map _ (List.nodup_range _)
    intro a b hab
    simpa using hab

/-- Witness of `generate_load_spawns`: two workers at 10 messages per second, no duration. -/
theorem generate_load_spawns_witness :
    (0 : Int) ≤ 2 ∧
    ((∃ s, exec (GenerateLoad 2 10 0)
        (List.replicate ((2 : Int).toNat + 1) Action.spawn) = some s ∧
      s.ctrl = Ctrl.waiting) ∧
    ∀ (sched : List Action) (s : Sys), exec (GenerateLoad 2 10 0) sched = some s →
      (s.timer ≠ Timer.absent ↔ (0 : Int) < 0) ∧
      ((∀ i, s.ctrl ≠ Ctrl.spawning i) →
        (s.workers.length : Int) = 2 ∧
        spawnArgs s =
          (List.range (2 : Int).toNat).map (fun (k : Nat) => ((k : Int), 10, s.stopCh)) ∧
        (s.workers.map (fun g => g.threadID)).Nodup)) :=
  ⟨by decide, generate_load_spawns 2 10 0 (by decide)⟩

/-- C5, as stated, fails for rates above 1000000000: with one worker, R = 2000000000 and
a duration of one second, the worker panics building its ticker, its deferred `wg.Done()`
releases `wg.Wait()`, and `GenerateLoad` has returned at time 0 with the stop channel
still open and the worker terminated. -/
theorem generate_load_returns_early_on_ticker_panic :
    ∃ s, exec (GenerateLoad 1 2000000000 1000000000)
        [Action.spawn, Action.spawn, Action.start 0, Action.wait] = some s ∧
      s.ctrl = Ctrl.returned ∧ s.now = 0 ∧ s.stopClosed = false ∧
      s.workers = [⟨0, 2000000000, 0, Phase.panicked Panic.nonPositiveInterval⟩] :=
  ⟨_, rfl, rfl, rfl, rfl, rfl⟩

/-- C5, amended: for every configuration with worker_count > 0, a rate
`1 ≤ R ≤ 1000000000` and a duration D (in particular every D > 0), in every reachable
state the stop channel is closed only by the deadline timer and not before time D, no
worker has terminated while the stop channel is open, and `GenerateLoad` has returned only
if all N workers have returned and at least D has elapsed. -/
theorem generate_load_not_before_deadline (N R D : Int) (hN : 0 < N) (hR1 : 1 ≤ R)
    (hR2 : R ≤ 1000000000) (sched : List Action) (s : Sys)
    (h : exec (GenerateLoad N R D) sched = some s) :
    (s.stopClosed = true → s.timer = Timer.closed ∧ D ≤ (s.now : Int)) ∧
    (∀ g ∈ s.workers, hasTerminated g = true → s.stopClosed = true) ∧
    (s.ctrl = Ctrl.returned →
      (s.workers.length : Int) = N ∧ (∀ g ∈ s.workers, hasReturned g = true) ∧
      D ≤ (s.now : Int)) := by
  have hinv := Inv_reach N R D sched s h
  have hclosed : s.stopClosed = true → s.timer = Timer.closed ∧ D ≤ (s.now : Int) :=
    fun hc => ⟨hinv.closed.1 hc, hinv.deadline (hinv.closed.1 hc)⟩
  have hterm : ∀ g ∈ s.workers, hasTerminated g = true → hasReturned g = true := by
    intro g hg ht
    have hv := hinv.valid ⟨hR1, hR2⟩ g hg
    unfold hasTerminated at ht
    unfold hasReturned
    cases hph : g.phase with
    | created => rw [hph] at ht; exact absurd ht (by simp)
    | panicked p => exact absurd hph (hv p)
    | started ws => rw [hph] at ht; exact ht
  refine ⟨hclosed, fun g hg ht => hinv.ret g hg (hterm g hg ht), ?_⟩
  intro hc
  have hlen := hinv.spawned (by intro i; rw [hc]; simp)
  have hall : ∀ g ∈ s.workers, hasReturned g = true :=
    fun g hg => hterm g hg (hinv.done hc g hg)
  refine ⟨by omega, hall, ?_⟩
  have hpos : 0 < s.workers.length := by omega
  obtain ⟨g, hg⟩ := List.exists_mem_of_length_pos hpos
  exact (hclosed (hinv.ret g hg (hall g hg))).2

/-- Witness of `generate_load_not_before_deadline`: one worker at 10 messages per second
with a duration of 100 ns, stopped by the timer and returning at time 100. -/
theorem generate_load_not_before_deadline_witness :
    ∃ s, exec (GenerateLoad 1 10 100)
        [Action.spawn, Action.spawn, Action.timerSleep, Action.start 0, Action.tick 0 true,
          Action.elapse 100, Action.timerClose, Action.stop 0, Action.wait] = some s ∧
      s.ctrl = Ctrl.returned ∧
      (s.stopClosed = true → s.timer = Timer.closed ∧ (100 : Int) ≤ (s.now : Int)) ∧
      (∀ g ∈ s.workers, hasTerminated g = true → s.stopClosed = true) ∧
      (s.ctrl = Ctrl.returned →
        (s.workers.length : Int) = 1 ∧ (∀ g ∈ s.workers, hasReturned g = true) ∧
        (100 : Int) ≤ (s.now : Int)) :=
  ⟨_, rfl, rfl,
    generate_load_not_before_deadline 1 10 100 (by decide) (by decide) (by decide)
      [Action.spawn, Action.spawn, Action.timerSleep, Action.start 0, Action.tick 0 true,
        Action.elapse 100, Action.timerClose, Action.stop 0, Action.wait] _ rfl⟩

/-- C6, on the code: in the run that `main` starts, `GenerateLoad(1, 10, 0)`, the signal
does not do what the claim requires. When it fires the stop channel stays open, the
worker is still in its loop, `GenerateLoad` is still blocked in `wg.Wait()`, and nothing
more is executed because `main` has returned: no worker observes a stop and
`GenerateLoad` never returns. -/
theorem signal_leaves_stop_channel_open :
    ∃ s, exec (GenerateLoad 1 10 0)
        [Action.spawn, Action.spawn, Action.start 0, Action.tick 0 true, Action.signal] =
          some s ∧
      s.stopClosed = false ∧ s.ctrl = Ctrl.waiting ∧
      s.workers = [⟨0, 10, 0, Phase.started ⟨0, 100000000, 1, false⟩⟩] ∧
      s.exited = true ∧ ∀ a, step s a = none :=
  ⟨_, rfl, rfl, rfl, rfl, rfl, fun _ => rfl⟩

/-- C3, as stated, fails: `GenerateLoad(0, 10, 0)` returns normally, with no worker and
no panic, hence without any error; and `GenerateLoad(1, 0, 0)` does start worker 0, which
then panics on the division by zero. -/
theorem generate_load_accepts_invalid_config :
    (∃ s, exec (GenerateLoad 0 10 0) [Action.spawn, Action.wait] = some s ∧
      s.ctrl = Ctrl.returned ∧ s.workers = [] ∧ anyPanicked s.workers = false) ∧
    (∃ s, exec (GenerateLoad 1 0 0) [Action.spawn, Action.spawn, Action.start 0] = some s ∧
      s.workers = [⟨0, 0, 0, Phase.panicked Panic.divideByZero⟩]) :=
  ⟨⟨_, rfl, rfl, rfl, rfl⟩, ⟨_, rfl, rfl⟩⟩

/-- C3, amended: `GenerateLoad` validates nothing and has no error result. For every
configuration with worker_count ≤ 0 or target_rate ≤ 0 (any duration), in every reachable
state there is no Sender invocation and no worker in its send loop; with worker_count ≤ 0
no worker is ever started, nothing panics, and `GenerateLoad` returns normally as soon as
the loop condition and `wg.Wait()` have run. -/
theorem generate_load_invalid_config_sends_nothing (N R D : Int) (hbad : N ≤ 0 ∨ R ≤ 0)
    (sched : List Action) (s : Sys) (h : exec (GenerateLoad N R D) sched = some s) :
    sentMessages s.effects = [] ∧ s.effects = [] ∧
    (∀ g ∈ s.workers, ∀ ws, g.phase ≠ Phase.started ws) ∧
    (N ≤ 0 → s.workers = [] ∧ anyPanicked s.workers = false ∧
      ∃ s2, exec (GenerateLoad N R D) [Action.spawn, Action.wait] = some s2 ∧
        s2.ctrl = Ctrl.returned) := by
  have hinv := Inv_reach N R D sched s h
  have hcases : N ≤ 0 ∨ ¬ (1 ≤ R ∧ R ≤ 1000000000) := by
    rcases hbad with hN | hR
    · exact Or.inl hN
    · exact Or.inr (by omega)
  have heff := hinv.quiet hcases
  refine ⟨by rw [heff]; rfl, heff, ?_, ?_⟩
  · intro g hg ws
    rcases hcases with hN | hR
    · have := Inv_no_worker hinv hN
      rw [this] at hg
      exact absurd hg (by simp)
    · exact hinv.invalid hR g hg ws
  · intro hN
    have hnil := Inv_no_worker hinv hN
    refine ⟨hnil, by rw [hnil]; rfl, ?_⟩
    have hge : ¬ (0 : Int) < N := by omega
    refine ⟨{ GenerateLoad N R D with ctrl := Ctrl.returned }, ?_, rfl⟩
    simp [exec, step, GenerateLoad, hge]

/-- Witness of `generate_load_invalid_config_sends_nothing`: one worker at rate 0, after
the worker has been started. -/
theorem generate_load_invalid_config_sends_nothing_witness :
    ∃ s, exec (GenerateLoad 1 0 0) [Action.spawn, Action.spawn, Action.start 0] = some s ∧
      sentMessages s.effects = [] ∧ s.effects = [] ∧
      (∀ g ∈ s.workers, ∀ ws, g.phase ≠ Phase.started ws) ∧
      ((1 : Int) ≤ 0 → s.workers = [] ∧ anyPanicked s.workers = false ∧
        ∃ s2, exec (GenerateLoad 1 0 0) [Action.spawn, Action.wait] = some s2 ∧
          s2.ctrl = Ctrl.returned) :=
  ⟨_, rfl,
    generate_load_invalid_config_sends_nothing 1 0 0 (Or.inr (by decide))
      [Action.spawn, Action.spawn, Action.start 0] _ rfl⟩

end KafkaLoad
